import Mathlib

/-!
# Verification of the libvfio-user-rs DMA / configuration / dispatch core

Shallow embedding of the Rust sources of `libvfio-user-rs`:

* `src/libvfio-user/src/dma.rs` — the DMA Range/Mapping engine
  (`DeviceContext::dma_range`, `DmaRange::{read, write, is_mappable,
  into_mapping}`, `impl Drop for DmaMapping`);
* `src/libvfio-user/src/setup.rs` and `src/libvfio-user/src/lib.rs` —
  region-kind registry (`DeviceRegionKind::to_vfu_region_type`) and the
  configuration validator (`DeviceConfigurator::validate`);
* `src/libvfio-user/src/callbacks.rs` — region-access result conversion
  and the DMA register/unregister callbacks.

The native libvfio-user C library is an external collaborator.  Its
primitives (`vfu_addr_to_sgl`, `vfu_sg_is_mappable`, `vfu_sgl_get`,
`vfu_sgl_put`, `vfu_sgl_read`, `vfu_sgl_write`) are modelled as explicit
parameters or as small concrete models of their documented copy semantics;
machine integers are modelled by `Nat`/`Int` (return codes of the native
calls are C `int`s, carried as `Int`).
-/

/-! ## Scatter-gather entries and host spans

`dma_sg_t` is opaque in the native library (only its size is exposed);
a populated entry carries a guest address and a length.  `iovec` is a host
span: base address and length in the emulator's address space. -/

/-- One scatter-gather entry as filled in by the native translation
(`dma_sg_t`).  The Rust side stores entries as raw bytes in `sgl_buffer`;
each `dma_sg_size()`-byte chunk of that buffer is one slot. -/
structure SgEntry where
  dma_addr : Nat
  length : Nat
deriving DecidableEq, Repr

/-- The zero-filled slot: `dma_range` allocates `vec![0u8; dma_sg_size() *
max_regions]`, so every slot the native call does not populate stays as
the all-zeroes entry. -/
def zeroSg : SgEntry := ⟨0, 0⟩

/-- A host-memory span (`iovec`): base address and length. -/
structure Iovec where
  iov_base : Nat
  iov_len : Nat
deriving DecidableEq, Repr

/-- Error conditions of the DMA engine.  The Rust code reports these as
`anyhow` messages; each constructor corresponds to one `ensure!`/`anyhow!`
site in `dma.rs`. -/
inductive DmaError where
  /-- "Mapping should not be empty. Skip calling if len == 0." -/
  | emptyRange
  /-- "At least 1 region is required." (`max_regions == 0`). -/
  | zeroMaxRegions
  /-- "No mappable regions registered, have you called .setup_dma(true)
  during configuration?" -/
  | noMappableRegions
  /-- "Failed to populate sgl entries: no entries created" (`ret == 0`). -/
  | noEntriesCreated
  /-- "Failed to populate sgl entries: {last OS error}" (`ret == -1`). -/
  | osError (errno : Int)
  /-- "not enough sg entries available, required={}, available={}"
  (`ret < -1`). -/
  | insufficientCapacity (required available : Nat)
  /-- "Dma range is not mappable." (`into_mapping`). -/
  | notMappable
  /-- "Failed to populate iovec array: {last OS error}" (`vfu_sgl_get`
  returned nonzero). -/
  | sglGetFailed (errno : Int)
  /-- "Must write exact size of dma range" (`write` size check). -/
  | writeSizeMismatch
deriving DecidableEq, Repr

/-- The native calls `dma_range` can make, recorded as a trace so that
"no host-mapping side effect" is expressible: only `vfu_sgl_get` maps and
only `vfu_sgl_put` unmaps host spans. -/
inductive NativeCall where
  | addrToSgl
  | sglGet
  | sglPut
deriving DecidableEq, Repr

/-- `DmaRange` (dma.rs lines 15–23): owns the raw sgl buffer of
`max_regions` slots (`slots`), the originally requested byte size
(`size`) and the number of slots actually populated by the native
translation (`region_count`). -/
structure DmaRange where
  slots : List SgEntry
  size : Nat
  region_count : Nat
deriving DecidableEq, Repr

/-- The populated entries of the range: the first `region_count` slots of
the buffer. -/
def DmaRange.entries (r : DmaRange) : List SgEntry :=
  r.slots.take r.region_count

/-- `DmaRange::is_mappable` (dma.rs lines 78–88): iterates over
`sgl_buffer.chunks_exact(dma_sg_size())` — i.e. over *every* slot of the
allocated buffer, populated or not — and requires
`vfu_sg_is_mappable` (here the abstract predicate `p`) on each. -/
def DmaRange.is_mappable (p : SgEntry → Bool) (r : DmaRange) : Bool :=
  r.slots.all p

/-- `DeviceContext::dma_range` (dma.rs lines 176–239).

* `f` models `vfu_addr_to_sgl`: given `(dma_addr, len, max_regions, prot)`
  it yields the C return code and the entries written into the buffer
  prefix;
* `lastError` models `Error::last_os_error()`;
* `dma_regions` is the context's DMA table (base ↦ length);
* the second component is the trace of native calls performed. -/
def dma_range (f : Nat → Nat → Nat → Nat → Int × List SgEntry) (lastError : Int)
    (dma_regions : List (Nat × Nat)) (dma_addr len max_regions : Nat)
    (read write : Bool) : Except DmaError DmaRange × List NativeCall :=
  if len = 0 then (.error .emptyRange, [])
  else if max_regions = 0 then (.error .zeroMaxRegions, [])
  else if dma_regions.isEmpty then (.error .noMappableRegions, [])
  else
    let prot := (if read then 1 else 0) ||| (if write then 2 else 0)
    let res := f dma_addr len max_regions prot
    if res.1 = 0 then (.error .noEntriesCreated, [.addrToSgl])
    else if res.1 = -1 then (.error (.osError lastError), [.addrToSgl])
    else if res.1 < -1 then
      (.error (.insufficientCapacity (-res.1 - 1).toNat max_regions), [.addrToSgl])
    else
      (.ok ⟨res.2 ++ List.replicate (max_regions - res.2.length) zeroSg,
            len, res.1.toNat⟩,
       [.addrToSgl])

/-- C1: `DeviceContext::dma_range` precondition and return-code semantics.
The call fails when `len = 0`, when `max_regions = 0`, or when the DMA
table is empty (`NoMappableRegions`); otherwise the outcome is decided by
the native return code: `0 ↦ NoEntriesCreated`, `-1 ↦` the platform's last
error, `ret < -1 ↦ InsufficientCapacity (required := -ret-1, available :=
max_regions)`, and `ret ≥ 1 ↦` success with exactly `ret` entries. -/
theorem dma_range_result_semantics
    (f : Nat → Nat → Nat → Nat → Int × List SgEntry) (lastError : Int)
    (regs : List (Nat × Nat)) (addr len maxr : Nat) (rd wr : Bool) :
    (len = 0 →
      dma_range f lastError regs addr len maxr rd wr = (.error .emptyRange, [])) ∧
    (len ≠ 0 → maxr = 0 →
      dma_range f lastError regs addr len maxr rd wr = (.error .zeroMaxRegions, [])) ∧
    (len ≠ 0 → maxr ≠ 0 → regs = [] →
      dma_range f lastError regs addr len maxr rd wr = (.error .noMappableRegions, [])) ∧
    (len ≠ 0 → maxr ≠ 0 → regs ≠ [] →
      ((f addr len maxr ((if rd then 1 else 0) ||| (if wr then 2 else 0))).1 = 0 →
        (dma_range f lastError regs addr len maxr rd wr).1 = .error .noEntriesCreated) ∧
      ((f addr len maxr ((if rd then 1 else 0) ||| (if wr then 2 else 0))).1 = -1 →
        (dma_range f lastError regs addr len maxr rd wr).1 = .error (.osError lastError)) ∧
      (∀ ret : Int,
        (f addr len maxr ((if rd then 1 else 0) ||| (if wr then 2 else 0))).1 = ret →
        ret < -1 →
        (dma_range f lastError regs addr len maxr rd wr).1 =
          .error (.insufficientCapacity (-ret - 1).toNat maxr)) ∧
      (∀ ret : Int,
        (f addr len maxr ((if rd then 1 else 0) ||| (if wr then 2 else 0))).1 = ret →
        1 ≤ ret →
        (dma_range f lastError regs addr len maxr rd wr).1 =
          .ok ⟨(f addr len maxr ((if rd then 1 else 0) ||| (if wr then 2 else 0))).2 ++
                List.replicate
                  (maxr - (f addr len maxr
                    ((if rd then 1 else 0) ||| (if wr then 2 else 0))).2.length) zeroSg,
               len, ret.toNat⟩)) := by
  have hempty : regs ≠ [] → regs.isEmpty = false := by
    cases regs <;> simp [List.isEmpty]
  refine ⟨?_, ?_, ?_, ?_⟩
  · intro h; simp [dma_range, h]
  · intro h1 h2; simp [dma_range, h1, h2]
  · intro h1 h2 h3; simp [dma_range, h1, h2, h3, List.isEmpty]
  · intro h1 h2 h3
    refine ⟨?_, ?_, ?_, ?_⟩
    · intro hret; simp [dma_range, h1, h2, hempty h3, hret]
    · intro hret; simp [dma_range, h1, h2, hempty h3, hret]
    · intro ret hret hlt
      have h0 : ret ≠ 0 := by omega
      have hm1 : ret ≠ -1 := by omega
      simp [dma_range, h1, h2, hempty h3, hret, h0, hm1, hlt]
    · intro ret hret hge
      have h0 : ret ≠ 0 := by omega
      have hm1 : ret ≠ -1 := by omega
      have hlt : ¬ ret < -1 := by omega
      simp [dma_range, h1, h2, hempty h3, hret, h0, hm1, hlt]

/-- Witness for C1 at the claim's own example: a request needing 2 entries
(`vfu_addr_to_sgl` returns `-3`) with `max_regions = 1` fails with
`InsufficientCapacity (required := 2, available := 1)`. -/
theorem dma_range_result_semantics_witness :
    (8 : Nat) ≠ 0 ∧ (1 : Nat) ≠ 0 ∧ ([((0 : Nat), (4096 : Nat))] : List (Nat × Nat)) ≠ [] ∧
    (dma_range (fun _ _ _ _ => ((-3 : Int), [])) 7 [(0, 4096)] 0 8 1 true false).1 =
      .error (.insufficientCapacity 2 1) := by
  refine ⟨by decide, by decide, by decide, ?_⟩
  exact (dma_range_result_semantics (fun _ _ _ _ => ((-3 : Int), [])) 7 [(0, 4096)]
    0 8 1 true false).2.2.2 (by decide) (by decide) (by decide)
    |>.2.2.1 (-3) rfl (by decide)

/-- C10: whenever `dma_range` returns `Ok r`, then `r.size = len`,
`1 ≤ r.region_count ≤ max_regions` (given the native contract that a
non-negative return code counts the entries it wrote, never exceeding the
supplied budget), and the call performed no host-mapping native operation
(`vfu_sgl_get`/`vfu_sgl_put` absent from the trace). -/
theorem dma_range_ok_postconditions
    (f : Nat → Nat → Nat → Nat → Int × List SgEntry) (lastError : Int)
    (regs : List (Nat × Nat)) (addr len maxr : Nat) (rd wr : Bool)
    (r : DmaRange) (tr : List NativeCall)
    (hok : dma_range f lastError regs addr len maxr rd wr = (.ok r, tr))
    (hnative : ∀ ret : Int, ∀ es : List SgEntry,
      f addr len maxr ((if rd then 1 else 0) ||| (if wr then 2 else 0)) = (ret, es) →
      0 ≤ ret → es.length = ret.toNat ∧ ret.toNat ≤ maxr) :
    r.size = len ∧ 1 ≤ r.region_count ∧ r.region_count ≤ maxr ∧
    NativeCall.sglGet ∉ tr ∧ NativeCall.sglPut ∉ tr := by
  by_cases h1 : len = 0
  · simp [dma_range, h1] at hok
  by_cases h2 : maxr = 0
  · simp [dma_range, h1, h2] at hok
  by_cases h3 : regs.isEmpty
  · simp [dma_range, h1, h2, h3] at hok
  set prot := (if rd then 1 else 0) ||| (if wr then 2 else 0) with hprot
  set res := f addr len maxr prot with hres
  by_cases hr0 : res.1 = 0
  · simp [dma_range, h1, h2, h3, ← hprot, ← hres, hr0] at hok
  by_cases hrm1 : res.1 = -1
  · simp [dma_range, h1, h2, h3, ← hprot, ← hres, hr0, hrm1] at hok
  by_cases hrlt : res.1 < -1
  · simp [dma_range, h1, h2, h3, ← hprot, ← hres, hr0, hrm1, hrlt] at hok
  have hok' := hok
  simp [dma_range, h1, h2, h3, ← hprot, ← hres, hr0, hrm1, hrlt] at hok'
  have hcontract := hnative res.1 res.2 rfl (by omega)
  have hpos : 1 ≤ res.1.toNat := by omega
  rcases hok' with ⟨hr, htr⟩
  subst htr
  refine ⟨?_, ?_, ?_, by decide, by decide⟩
  · rw [← hr]
  · rw [← hr]; exact hpos
  · rw [← hr]; exact hcontract.2

/-- Witness for C10: a translation writing one 8-byte entry with budget 1
yields a range with `size = 8` and `region_count = 1`. -/
theorem dma_range_ok_postconditions_witness :
    (dma_range (fun _ _ _ _ => ((1 : Int), [⟨0, 8⟩])) 7 [(0, 4096)] 0 8 1 true false =
      (.ok ⟨[⟨0, 8⟩], 8, 1⟩, [.addrToSgl])) ∧
    ((⟨[⟨0, 8⟩], 8, 1⟩ : DmaRange).size = 8 ∧
      1 ≤ (⟨[⟨0, 8⟩], 8, 1⟩ : DmaRange).region_count ∧
      (⟨[⟨0, 8⟩], 8, 1⟩ : DmaRange).region_count ≤ 1 ∧
      NativeCall.sglGet ∉ [NativeCall.addrToSgl] ∧
      NativeCall.sglPut ∉ [NativeCall.addrToSgl]) := by
  refine ⟨rfl, ?_⟩
  exact dma_range_ok_postconditions (fun _ _ _ _ => ((1 : Int), [⟨0, 8⟩])) 7 [(0, 4096)]
    0 8 1 true false ⟨[⟨0, 8⟩], 8, 1⟩ [.addrToSgl] rfl
    (fun ret es h _ => by
      injection h with h1 h2
      subst h1; subst h2
      exact ⟨rfl, by decide⟩)

/-! ## Host mappings: `into_mapping` and `Drop for DmaMapping`

Host spans are acquired only by `vfu_sgl_get` and released only by
`vfu_sgl_put`.  `DmaState` is the ledger of span sets currently acquired
from the native session, together with a count of `vfu_sgl_put`
invocations, so that "release exactly once" is expressible. -/

/-- Ledger of the native session's outstanding host mappings. -/
structure DmaState where
  acquired : List (List Iovec)
  putCount : Nat
deriving DecidableEq, Repr

/-- `DmaMapping` (dma.rs lines 124–128): the range it came from and one
host span per populated entry. -/
structure DmaMapping where
  range : DmaRange
  mapped_regions : List Iovec
deriving DecidableEq, Repr

/-- `DmaMapping::total_length` (dma.rs lines 146–148). -/
def DmaMapping.total_length (m : DmaMapping) : Nat :=
  (m.mapped_regions.map Iovec.iov_len).sum

/-- `DmaRange::into_mapping` (dma.rs lines 90–121): requires
`is_mappable`, then performs one `vfu_sgl_get` for the first
`region_count` entries of the buffer (`g` models `vfu_sgl_get`: `some
iovs` on success — the spans are then acquired — `none` on nonzero
return, in which case nothing is acquired). -/
def DmaRange.into_mapping (p : SgEntry → Bool)
    (g : List SgEntry → Option (List Iovec)) (lastError : Int)
    (s : DmaState) (r : DmaRange) : Except DmaError DmaMapping × DmaState :=
  if r.is_mappable p then
    match g (r.slots.take r.region_count) with
    | some iovs => (.ok ⟨r, iovs⟩, ⟨iovs :: s.acquired, s.putCount⟩)
    | none => (.error (.sglGetFailed lastError), s)
  else (.error .notMappable, s)

/-- `impl Drop for DmaMapping` (dma.rs lines 162–173): a single
`vfu_sgl_put` over all of the mapping's spans. -/
def DmaMapping.dropMapping (s : DmaState) (m : DmaMapping) : DmaState :=
  { acquired := s.acquired.erase m.mapped_regions, putCount := s.putCount + 1 }

/-- Model of Rust scope semantics for a value owning a `DmaMapping`:
the language guarantees `Drop::drop` runs exactly once on every exit
path of the owning scope — normal completion and early return / error
alike — so both branches invoke the embedded drop glue
`DmaMapping.dropMapping` exactly once. -/
def withMapping {ε α : Type} (s : DmaState) (m : DmaMapping)
    (body : DmaMapping → Except ε α) : Except ε α × DmaState :=
  match body m with
  | .ok a => (.ok a, m.dropMapping s)
  | .error e => (.error e, m.dropMapping s)

/-! ## C2: `is_mappable` consults the zero-filled padding slots -/

/-- A range produced with `max_regions = 2` whose translation populated a
single entry: the buffer holds the entry plus one zero-filled slot. -/
def padRange : DmaRange := ⟨[⟨0x100, 4⟩, zeroSg], 4, 1⟩

/-- A native mappability predicate under which the populated entry is
mappable but the all-zeroes slot is not (the native
`vfu_sg_is_mappable` dereferences the slot's region index, so its verdict
on a zero-filled slot is unrelated to the range's actual entries). -/
def nonzeroLenMappable : SgEntry → Bool := fun sg => decide (0 < sg.length)

/-- C2 (failing input): every populated entry of `padRange` is mappable,
yet `DmaRange::is_mappable` returns `false`, because the code iterates
over all `max_regions` buffer slots instead of the `region_count`
populated ones. -/
theorem is_mappable_consults_padding_slots :
    (padRange.entries.all nonzeroLenMappable = true) ∧
    (padRange.is_mappable nonzeroLenMappable = false) := by
  exact ⟨rfl, rfl⟩

/-! ## C3: `into_mapping` -/

/-- C3 (counterexample to the claim as stated): on `padRange` every
populated entry is mappable, so the claim requires `into_mapping` to
succeed; the code instead rejects the range without acquiring any span,
because its `is_mappable` gate also consults the zero padding slot. -/
theorem into_mapping_rejects_entrywise_mappable_range :
    (padRange.entries.all nonzeroLenMappable = true) ∧
    (padRange.into_mapping nonzeroLenMappable
        (fun es => some (es.map fun sg => ⟨sg.dma_addr, sg.length⟩)) 0
        ⟨[], 0⟩ =
      (.error .notMappable, ⟨[], 0⟩)) := by
  exact ⟨rfl, rfl⟩

/-- C3 (amended): with `is_mappable` read as the code computes it (all
buffer slots pass the native predicate): if the native `vfu_sgl_get`
supplies the spans, `into_mapping` succeeds, acquires exactly those
spans, and — given the native contract that the spans cover the
translated range — their total length is the originally requested size;
if some buffer slot fails the predicate, or `vfu_sgl_get` fails, it
returns an error and no host span is or remains acquired. -/
theorem into_mapping_spec (p : SgEntry → Bool)
    (g : List SgEntry → Option (List Iovec)) (e : Int) (s : DmaState)
    (r : DmaRange) :
    (∀ iovs : List Iovec, r.is_mappable p = true →
      g (r.slots.take r.region_count) = some iovs →
      r.into_mapping p g e s = (.ok ⟨r, iovs⟩, ⟨iovs :: s.acquired, s.putCount⟩) ∧
      ((iovs.map Iovec.iov_len).sum = r.size →
        DmaMapping.total_length ⟨r, iovs⟩ = r.size)) ∧
    (r.is_mappable p = false →
      r.into_mapping p g e s = (.error .notMappable, s)) ∧
    (r.is_mappable p = true → g (r.slots.take r.region_count) = none →
      r.into_mapping p g e s = (.error (.sglGetFailed e), s)) := by
  refine ⟨?_, ?_, ?_⟩
  · intro iovs hm hg
    refine ⟨?_, fun hsum => hsum⟩
    simp [DmaRange.into_mapping, hm, hg]
  · intro hm
    simp [DmaRange.into_mapping, hm]
  · intro hm hg
    simp [DmaRange.into_mapping, hm, hg]

/-- Witness for C3's amended claim: a fully mappable one-entry range whose
span the host supplies; `into_mapping` succeeds, acquires the span, and
the mapping's total length is the requested 4 bytes. -/
theorem into_mapping_spec_witness :
    ((⟨[⟨0x100, 4⟩], 4, 1⟩ : DmaRange).is_mappable nonzeroLenMappable = true) ∧
    ((⟨[⟨0x100, 4⟩], 4, 1⟩ : DmaRange).into_mapping nonzeroLenMappable
        (fun _ => some [⟨0x7000, 4⟩]) 0 ⟨[], 0⟩ =
      (.ok ⟨⟨[⟨0x100, 4⟩], 4, 1⟩, [⟨0x7000, 4⟩]⟩, ⟨[[⟨0x7000, 4⟩]], 0⟩)) ∧
    (DmaMapping.total_length ⟨⟨[⟨0x100, 4⟩], 4, 1⟩, [⟨0x7000, 4⟩]⟩ = 4) := by
  have h := (into_mapping_spec nonzeroLenMappable (fun _ => some [⟨0x7000, 4⟩]) 0
    ⟨[], 0⟩ ⟨[⟨0x100, 4⟩], 4, 1⟩).1 [⟨0x7000, 4⟩] rfl rfl
  exact ⟨rfl, h.1, h.2 rfl⟩

/-! ## C6: release happens exactly once on every exit path -/

/-- C6: for every ledger, mapping and scope body, leaving the scope —
whether the body completed normally or exited with an error raised after
acquisition — invokes the native release (`vfu_sgl_put`) exactly once:
the put count rises by exactly one, the mapping's span set is removed
from the ledger, and a span set acquired immediately before the scope is
exactly paid back. -/
theorem dmaMapping_release_exactly_once {ε α : Type} (s : DmaState)
    (m : DmaMapping) (body : DmaMapping → Except ε α) :
    ((withMapping s m body).2.putCount = s.putCount + 1) ∧
    ((withMapping s m body).2.acquired = s.acquired.erase m.mapped_regions) ∧
    (∀ rest : List (List Iovec), s.acquired = m.mapped_regions :: rest →
      (withMapping s m body).2.acquired = rest) := by
  refine ⟨?_, ?_, ?_⟩ <;>
    cases h : body m <;>
      simp [withMapping, DmaMapping.dropMapping, h] <;>
        intro rest hrest <;> simp [hrest]

/-- Witness for C6: a freshly acquired one-span mapping whose scope exits
with an error still releases exactly once and empties the ledger. -/
theorem dmaMapping_release_exactly_once_witness :
    ((⟨[[⟨0x7000, 4⟩]], 0⟩ : DmaState).acquired = [⟨0x7000, 4⟩] :: []) ∧
    ((withMapping ⟨[[⟨0x7000, 4⟩]], 0⟩ ⟨⟨[⟨0x100, 4⟩], 4, 1⟩, [⟨0x7000, 4⟩]⟩
        (fun _ => (Except.error 0 : Except Nat Nat))).2.putCount = 0 + 1) ∧
    ((withMapping ⟨[[⟨0x7000, 4⟩]], 0⟩ ⟨⟨[⟨0x100, 4⟩], 4, 1⟩, [⟨0x7000, 4⟩]⟩
        (fun _ => (Except.error 0 : Except Nat Nat))).2.acquired = ([] : List (List Iovec))) := by
  have h := dmaMapping_release_exactly_once
    ⟨[[⟨0x7000, 4⟩]], 0⟩ ⟨⟨[⟨0x100, 4⟩], 4, 1⟩, [⟨0x7000, 4⟩]⟩
    (fun _ => (Except.error 0 : Except Nat Nat))
  exact ⟨rfl, h.1, h.2.2 [] rfl⟩

/-! ## C4: `DmaRange::read` / `DmaRange::write`

Guest memory is a byte map.  `sglWriteN`/`sglReadN` model the documented
copy semantics of the native `vfu_sgl_write`/`vfu_sgl_read`: iterate over
the first `cnt` entries of the sgl, transferring each entry's `length`
bytes, advancing through the caller's buffer (the test double of the
native primitives always reports success). -/

/-- Guest memory: address to byte value. -/
def Mem : Type := Nat → Nat

/-- Store one byte. -/
def memWrite (m : Mem) (a v : Nat) : Mem := fun x => if x = a then v else m x

/-- Store consecutive bytes starting at `a`. -/
def memWriteList (m : Mem) (a : Nat) : List Nat → Mem
  | [] => m
  | b :: bs => memWriteList (memWrite m a b) (a + 1) bs

/-- The bytes of one scatter-gather entry. -/
def sglReadEntry (m : Mem) (sg : SgEntry) : List Nat :=
  (List.range sg.length).map fun i => m (sg.dma_addr + i)

/-- Model of the native `vfu_sgl_read(ctx, sgl, cnt, data)`: concatenates
the bytes of the first `cnt` entries into the caller's buffer. -/
def sglReadN (m : Mem) (sgl : List SgEntry) (cnt : Nat) : List Nat :=
  ((sgl.take cnt).map (sglReadEntry m)).flatten

/-- Model of the native `vfu_sgl_write(ctx, sgl, cnt, data)`: for each of
the first `cnt` entries, consumes that entry's `length` bytes from the
buffer and stores them at the entry's guest address. -/
def sglWriteN (m : Mem) : List SgEntry → Nat → List Nat → Mem
  | _, 0, _ => m
  | [], _, _ => m
  | sg :: rest, cnt + 1, data =>
      sglWriteN (memWriteList m sg.dma_addr (data.take sg.length)) rest cnt
        (data.drop sg.length)

/-- `DmaRange::read` (dma.rs lines 34–52): allocates `vec![0u8; size]`
and calls `vfu_sgl_read(ctx, sgl_buffer, 1, buffer)` — the entry count
passed to the native call is the constant `1`, not `region_count` — so
only the first entry's bytes land in the buffer; the rest stays zero. -/
def DmaRange.read (m : Mem) (r : DmaRange) : List Nat :=
  let copied := sglReadN m r.slots 1
  copied ++ List.replicate (r.size - copied.length) 0

/-- `DmaRange::write` (dma.rs lines 54–76): `ensure!(buffer.len() ==
self.size)`, then `vfu_sgl_write(ctx, sgl_buffer, 1, buffer)` — again
with the constant entry count `1`. -/
def DmaRange.write (m : Mem) (r : DmaRange) (data : List Nat) :
    Except DmaError Mem :=
  if data.length = r.size then .ok (sglWriteN m r.slots 1 data)
  else .error .writeSizeMismatch

/-- A translated range of two one-byte entries (`size = 2`,
`region_count = 2`). -/
def twoEntryRange : DmaRange := ⟨[⟨0x100, 1⟩, ⟨0x200, 1⟩], 2, 2⟩

/-- All-zero guest memory. -/
def zeroMem : Mem := fun _ => 0

/-- C4 (failing input): on a two-entry range, writing `[5, 6]` (the exact
declared size, so the size check passes) and reading the same range back
yields `[5, 0]`, not `[5, 6]`: both native calls are made with entry
count `1`, so only the first entry's byte is transferred.  The length
check itself behaves as claimed: a buffer of the wrong size is
rejected. -/
theorem write_then_read_truncates_to_first_entry :
    ((match twoEntryRange.write zeroMem [5, 6] with
      | .ok m => twoEntryRange.read m
      | .error _ => []) = [5, 0]) ∧
    ([5, 0] ≠ ([5, 6] : List Nat)) ∧
    (twoEntryRange.write zeroMem [5] = .error .writeSizeMismatch) := by
  exact ⟨rfl, by decide, rfl⟩

/-! ## C5: the DeviceContext DMA table

The `DeviceContext` holds `dma_regions`, a map from DMA base address to
region length with unique keys.  Modelled from the spec: the field's
declaring `lib.rs` revision is not among the sources; its single-key map
semantics ("mapping from DMA base address to region length (keys unique;
entries added only via DMA-register events, removed only via
DMA-unregister events)") is embedded as an association list with
replace-on-existing-key insertion.  The two mutations are exactly the
ones `callbacks.rs` performs: `dma_register_callback` (lines 103–113)
inserts `iova.iov_base ↦ iova.iov_len`, `dma_unregister_callback`
(lines 115–125) removes by `iova.iov_base`. -/

/-- The two DMA notification events the native session delivers. -/
inductive DmaEvent where
  | registerEvent (base length : Nat)
  | unregisterEvent (base : Nat)
deriving DecidableEq, Repr

/-- The DMA table: base address ↦ region length, keys unique. -/
abbrev DmaTable := List (Nat × Nat)

/-- Map insertion: replace the value when the key is present, otherwise
append the new binding (unique-key map semantics of `HashMap::insert`). -/
def tableInsert (t : DmaTable) (base length : Nat) : DmaTable :=
  if t.any fun p => p.1 = base then
    t.map fun p => if p.1 = base then (base, length) else p
  else t ++ [(base, length)]

/-- Map removal by key (`HashMap::remove`). -/
def tableRemove (t : DmaTable) (base : Nat) : DmaTable :=
  t.filter fun p => p.1 ≠ base

/-- `dma_register_callback` inserts, `dma_unregister_callback` removes;
neither callback touches the table in any other way. -/
def applyDmaEvent (t : DmaTable) : DmaEvent → DmaTable
  | .registerEvent b l => tableInsert t b l
  | .unregisterEvent b => tableRemove t b

/-- The table after a sequence of DMA events, starting from `t`
(`dma_regions` starts out empty: `Default::default()`). -/
def applyDmaEvents (t : DmaTable) (es : List DmaEvent) : DmaTable :=
  es.foldl applyDmaEvent t

theorem tableInsert_of_not_mem (t : DmaTable) (b l : Nat)
    (h : b ∉ t.map Prod.fst) : tableInsert t b l = t ++ [(b, l)] := by
  have hany : (t.any fun p => p.1 = b) = false := by
    rw [List.any_eq_false]
    intro p hp
    simp only [decide_eq_true_eq]
    intro hpb
    exact h (List.mem_map.mpr ⟨p, hp, hpb⟩)
  simp [tableInsert, hany]

theorem applyDmaEvents_registers (regs : DmaTable) : ∀ t : DmaTable,
    ((t ++ regs).map Prod.fst).Nodup →
    applyDmaEvents t (regs.map fun p => DmaEvent.registerEvent p.1 p.2) =
      t ++ regs := by
  induction regs with
  | nil => intro t _; simp [applyDmaEvents]
  | cons hd tl ih =>
    intro t hnd
    have hb : hd.1 ∉ t.map Prod.fst := by
      intro hmem
      have hdisj : (t.map Prod.fst).Disjoint ((hd :: tl).map Prod.fst) := by
        rw [List.map_append] at hnd
        exact List.disjoint_of_nodup_append hnd
      exact hdisj hmem (by simp)
    have hstep : applyDmaEvents t ((hd :: tl).map fun p =>
        DmaEvent.registerEvent p.1 p.2) =
        applyDmaEvents (t ++ [(hd.1, hd.2)])
          (tl.map fun p => DmaEvent.registerEvent p.1 p.2) := by
      simp [applyDmaEvents, applyDmaEvent, tableInsert_of_not_mem t hd.1 hd.2 hb]
    rw [hstep]
    have hnd' : (((t ++ [(hd.1, hd.2)]) ++ tl).map Prod.fst).Nodup := by
      simpa [List.append_assoc] using hnd
    rw [ih (t ++ [(hd.1, hd.2)]) hnd']
    simp [List.append_assoc]

theorem applyDmaEvents_unregisters (us : List Nat) : ∀ t : DmaTable,
    applyDmaEvents t (us.map DmaEvent.unregisterEvent) =
      t.filter fun p => decide (p.1 ∉ us) := by
  induction us with
  | nil =>
    intro t
    simp [applyDmaEvents]
  | cons u us ih =>
    intro t
    have hstep : applyDmaEvents t ((u :: us).map DmaEvent.unregisterEvent) =
        applyDmaEvents (tableRemove t u) (us.map DmaEvent.unregisterEvent) := by
      simp [applyDmaEvents, applyDmaEvent]
    rw [hstep, ih, tableRemove, List.filter_filter]
    apply List.filter_congr
    intro p _
    simp [List.mem_cons, not_or, Bool.and_comm]

theorem filter_remove_one_length (u : Nat) : ∀ t : DmaTable,
    (t.map Prod.fst).Nodup → u ∈ t.map Prod.fst →
    (t.filter fun p => decide (p.1 ≠ u)).length = t.length - 1 := by
  intro t
  induction t with
  | nil => intro _ hmem; simp at hmem
  | cons hd tl ih =>
    intro hnd hmem
    rw [List.map_cons, List.nodup_cons] at hnd
    rcases hnd with ⟨hhd, hndtl⟩
    by_cases hb : hd.1 = u
    · have hfilt : tl.filter (fun p => decide (p.1 ≠ u)) = tl := by
        apply List.filter_eq_self.mpr
        intro p hp
        simp only [decide_eq_true_eq]
        intro hpu
        exact hhd (hb ▸ hpu ▸ List.mem_map.mpr ⟨p, hp, rfl⟩)
      rw [List.filter_cons]
      have hcond : ¬ (decide (hd.1 ≠ u) = true) := by simp [hb]
      rw [if_neg hcond, hfilt]
      simp
    · have hmem' : u ∈ tl.map Prod.fst := by
        rw [List.map_cons] at hmem
        rcases List.mem_cons.mp hmem with h | h
        · exact absurd h.symm hb
        · exact h
      have hpos : 1 ≤ tl.length := by
        cases tl with
        | nil => simp at hmem'
        | cons a l => simp
      have := ih hndtl hmem'
      simp only [List.filter_cons, decide_eq_true_eq]
      rw [if_pos (by simpa using hb)]
      simp only [List.length_cons, this]
      omega

theorem filter_not_mem_length (us : List Nat) : ∀ t : DmaTable,
    (t.map Prod.fst).Nodup → us.Nodup → (∀ u ∈ us, u ∈ t.map Prod.fst) →
    (t.filter fun p => decide (p.1 ∉ us)).length = t.length - us.length := by
  induction us with
  | nil => intro t _ _ _; simp
  | cons u us ih =>
    intro t hnd hus hmem
    have husnd : us.Nodup := (List.nodup_cons.mp hus).2
    have hunot : u ∉ us := (List.nodup_cons.mp hus).1
    have hsplit : (t.filter fun p => decide (p.1 ∉ u :: us)) =
        ((t.filter fun p => decide (p.1 ≠ u)).filter fun p =>
          decide (p.1 ∉ us)) := by
      rw [List.filter_filter]
      apply List.filter_congr
      intro p _
      simp [List.mem_cons, not_or, Bool.and_comm]
    have hnd' : (((t.filter fun p => decide (p.1 ≠ u)).map Prod.fst)).Nodup :=
      hnd.sublist ((List.filter_sublist t).map Prod.fst)
    have hmem' : ∀ v ∈ us, v ∈ (t.filter fun p => decide (p.1 ≠ u)).map Prod.fst := by
      intro v hv
      rcases List.mem_map.mp (hmem v (List.mem_cons_of_mem u hv)) with ⟨p, hp, hpv⟩
      refine List.mem_map.mpr ⟨p, List.mem_filter.mpr ⟨hp, ?_⟩, hpv⟩
      simp only [decide_eq_true_eq]
      intro hpu
      apply hunot
      have hvu : v = u := by rw [← hpv]; exact hpu
      rwa [hvu] at hv
    have hlen := filter_remove_one_length u t hnd (hmem u (List.mem_cons_self u us))
    rw [hsplit, ih _ hnd' husnd hmem', hlen]
    simp only [List.length_cons]
    omega

/-- C5: starting from the empty table, after `N` register events with
distinct bases followed by `M < N` unregister events referencing distinct
bases among those `N`, the table is exactly the non-unregistered
bindings: `N - M` entries, each base keeping its originally registered
length, with keys still unique. -/
theorem dma_table_register_unregister (regs : DmaTable) (us : List Nat)
    (h1 : (regs.map Prod.fst).Nodup) (h2 : us.Nodup)
    (h3 : ∀ u ∈ us, u ∈ regs.map Prod.fst) (_h4 : us.length < regs.length) :
    (applyDmaEvents []
        ((regs.map fun p => DmaEvent.registerEvent p.1 p.2) ++
          us.map DmaEvent.unregisterEvent) =
      regs.filter fun p => decide (p.1 ∉ us)) ∧
    ((applyDmaEvents []
        ((regs.map fun p => DmaEvent.registerEvent p.1 p.2) ++
          us.map DmaEvent.unregisterEvent)).length =
      regs.length - us.length) ∧
    (∀ p ∈ regs, p.1 ∉ us →
      p ∈ applyDmaEvents []
        ((regs.map fun p => DmaEvent.registerEvent p.1 p.2) ++
          us.map DmaEvent.unregisterEvent)) ∧
    ((applyDmaEvents []
        ((regs.map fun p => DmaEvent.registerEvent p.1 p.2) ++
          us.map DmaEvent.unregisterEvent)).map Prod.fst).Nodup := by
  have hfold : applyDmaEvents []
      ((regs.map fun p => DmaEvent.registerEvent p.1 p.2) ++
        us.map DmaEvent.unregisterEvent) =
      applyDmaEvents
        (applyDmaEvents [] (regs.map fun p => DmaEvent.registerEvent p.1 p.2))
        (us.map DmaEvent.unregisterEvent) := by
    simp [applyDmaEvents, List.foldl_append]
  have hreg : applyDmaEvents [] (regs.map fun p => DmaEvent.registerEvent p.1 p.2) =
      regs := by
    have := applyDmaEvents_registers regs [] (by simpa using h1)
    simpa using this
  have heq : applyDmaEvents []
      ((regs.map fun p => DmaEvent.registerEvent p.1 p.2) ++
        us.map DmaEvent.unregisterEvent) =
      regs.filter fun p => decide (p.1 ∉ us) := by
    rw [hfold, hreg, applyDmaEvents_unregisters]
  refine ⟨heq, ?_, ?_, ?_⟩
  · rw [heq]
    exact filter_not_mem_length us regs h1 h2 h3
  · intro p hp hpu
    rw [heq]
    exact List.mem_filter.mpr ⟨hp, by simpa using hpu⟩
  · rw [heq]
    exact h1.sublist ((List.filter_sublist regs).map Prod.fst)

/-- Witness for C5: three registrations and one unregistration leave the
two untouched bindings with their original lengths. -/
theorem dma_table_register_unregister_witness :
    (([((1 : Nat), (10 : Nat)), (2, 20), (3, 30)].map Prod.fst).Nodup ∧
      [(2 : Nat)].Nodup ∧
      (∀ u ∈ [(2 : Nat)], u ∈ [((1 : Nat), (10 : Nat)), (2, 20), (3, 30)].map Prod.fst) ∧
      [(2 : Nat)].length < [((1 : Nat), (10 : Nat)), (2, 20), (3, 30)].length) ∧
    (applyDmaEvents []
        (([((1 : Nat), (10 : Nat)), (2, 20), (3, 30)].map fun p =>
            DmaEvent.registerEvent p.1 p.2) ++
          [(2 : Nat)].map DmaEvent.unregisterEvent)).length = 3 - 1 ∧
    ((1, 10) ∈ applyDmaEvents []
        (([((1 : Nat), (10 : Nat)), (2, 20), (3, 30)].map fun p =>
            DmaEvent.registerEvent p.1 p.2) ++
          [(2 : Nat)].map DmaEvent.unregisterEvent)) := by
  have h := dma_table_register_unregister [(1, 10), (2, 20), (3, 30)] [2]
    (by decide) (by decide) (by decide) (by decide)
  exact ⟨⟨by decide, by decide, by decide, by decide⟩, h.2.1,
    h.2.2.1 (1, 10) (by decide) (by decide)⟩

/-! ## C7 / C8: region kind registry and configuration validation -/

/-- `DeviceRegionKind` (lib.rs lines 60–72): the ten representable region
kinds.  A BAR index greater than 5 is not representable: the type has
exactly the six constructors `Bar0`–`Bar5`. -/
inductive DeviceRegionKind where
  | Bar0
  | Bar1
  | Bar2
  | Bar3
  | Bar4
  | Bar5
  | Rom
  | Config (always_callback : Bool)
  | Vga
  | Migration
deriving DecidableEq, Repr

/-- `DeviceRegionKind::to_vfu_region_type` (setup.rs lines 17–31, lib.rs
lines 75–89): the protocol indices are the native constants
`VFU_PCI_DEV_{BAR0..BAR5,ROM,CFG,VGA,MIGR}_REGION_IDX = 0..9` (the
per-index dispatch table in callbacks.rs lines 33–42 / 62–71 pins these
values).  `Config`'s `always_callback` flag does not enter the index. -/
def DeviceRegionKind.to_vfu_region_type : DeviceRegionKind → Nat
  | .Bar0 => 0
  | .Bar1 => 1
  | .Bar2 => 2
  | .Bar3 => 3
  | .Bar4 => 4
  | .Bar5 => 5
  | .Rom => 6
  | .Config _ => 7
  | .Vga => 8
  | .Migration => 9

/-- The BAR kind carrying a given index `0..5`. -/
def barKind : Fin 6 → DeviceRegionKind
  | ⟨0, _⟩ => .Bar0
  | ⟨1, _⟩ => .Bar1
  | ⟨2, _⟩ => .Bar2
  | ⟨3, _⟩ => .Bar3
  | ⟨4, _⟩ => .Bar4
  | ⟨5, _⟩ => .Bar5

/-- The BAR index of a kind, when it is a BAR. -/
def barIndex : DeviceRegionKind → Option Nat
  | .Bar0 => some 0
  | .Bar1 => some 1
  | .Bar2 => some 2
  | .Bar3 => some 3
  | .Bar4 => some 4
  | .Bar5 => some 5
  | _ => none

/-- C8: `to_vfu_region_type` is a pure total function (hence
deterministic and side-effect free); on the six representable BAR kinds
it returns the distinct, stable indices `0..5`; and no representable BAR
kind carries an index above 5 — the type admits only `Bar0`–`Bar5`, so
the spec's "Bar index > 5 fails" case is enforced at the type level and
holds vacuously. -/
theorem to_vfu_region_type_bar_semantics :
    (∀ i : Fin 6, (barKind i).to_vfu_region_type = i.val) ∧
    (∀ i j : Fin 6,
      (barKind i).to_vfu_region_type = (barKind j).to_vfu_region_type → i = j) ∧
    (∀ k : DeviceRegionKind, ∀ n : Nat, barIndex k = some n → n ≤ 5) := by
  refine ⟨by decide, by decide, ?_⟩
  intro k n h
  cases k <;> simp [barIndex] at h <;> omega

/-- Witness for C8: `Bar3` carries index 3, which is `≤ 5`, and its
protocol index is the stable value 3. -/
theorem to_vfu_region_type_bar_semantics_witness :
    barIndex DeviceRegionKind.Bar3 = some 3 ∧ (3 : Nat) ≤ 5 ∧
    DeviceRegionKind.Bar3.to_vfu_region_type = 3 := by
  exact ⟨rfl, to_vfu_region_type_bar_semantics.2.2 DeviceRegionKind.Bar3 3 rfl, rfl⟩

/-- `DeviceRegion` (lib.rs lines 49–58). -/
structure DeviceRegion where
  region_type : DeviceRegionKind
  size : Nat
  file_descriptor : Int
  offset : Nat
  read : Bool
  write : Bool
  memory : Bool
deriving DecidableEq, Repr

/-- Configuration errors of the builder. -/
inductive ConfigError where
  /-- "Duplicate device region, idx={}" -/
  | duplicateRegion (idx : Nat)
deriving DecidableEq, Repr

/-- The protocol index of a configured region. -/
def regionIdx (r : DeviceRegion) : Nat := r.region_type.to_vfu_region_type

/-- The loop body of `DeviceConfigurator::validate` (setup.rs lines
35–51 / lib.rs lines 126–142): walk the region list with a seen-set of
protocol indices, rejecting the first repeated index. -/
def validateRegions (seen : List Nat) : List DeviceRegion → Except ConfigError Unit
  | [] => .ok ()
  | r :: rest =>
    if regionIdx r ∈ seen then .error (.duplicateRegion (regionIdx r))
    else validateRegions (regionIdx r :: seen) rest

/-- `DeviceConfigurator::validate`: `device_regions` is `None` when no
region was ever added (the builder field is unset), in which case
validation trivially passes. -/
def validate : Option (List DeviceRegion) → Except ConfigError Unit
  | none => .ok ()
  | some rs => validateRegions [] rs

theorem validateRegions_ok_iff (rs : List DeviceRegion) : ∀ seen : List Nat,
    validateRegions seen rs = .ok () ↔
      ((rs.map regionIdx).Nodup ∧ ∀ t ∈ rs.map regionIdx, t ∉ seen) := by
  induction rs with
  | nil => intro seen; simp [validateRegions]
  | cons r rest ih =>
    intro seen
    by_cases hmem : regionIdx r ∈ seen
    · simp [validateRegions, hmem]
    · rw [List.map_cons, List.nodup_cons]
      simp only [validateRegions, if_neg hmem, ih (regionIdx r :: seen)]
      constructor
      · rintro ⟨hnd, hall⟩
        refine ⟨⟨?_, hnd⟩, ?_⟩
        · intro hin
          exact absurd (List.mem_cons_self _ _) ((hall _ hin).elim ∘ fun h => h)
        · intro t ht
          rcases List.mem_cons.mp ht with h | h
          · rw [h]; exact hmem
          · exact fun hc => hall t h (List.mem_cons_of_mem _ hc)
      · rintro ⟨⟨hnotin, hnd⟩, hall⟩
        refine ⟨hnd, ?_⟩
        intro t ht hc
        rcases List.mem_cons.mp hc with h | h
        · exact hnotin (h ▸ ht)
        · exact hall t (List.mem_cons_of_mem _ ht) h

/-- Two read-only 4 KiB BAR regions on index 0, plus one on index 1, used
as the claim's example lists. -/
def bar0Region : DeviceRegion := ⟨.Bar0, 4096, 3, 0, true, false, false⟩

/-- A second `Bar0` region (different size, same protocol index). -/
def bar0RegionBis : DeviceRegion := ⟨.Bar0, 8192, 4, 0, true, true, false⟩

/-- A `Bar1` region. -/
def bar1Region : DeviceRegion := ⟨.Bar1, 4096, 5, 0, true, false, false⟩

/-- C7: configuration-time `validate` accepts exactly the region lists
whose protocol indices are pairwise distinct — it rejects iff two entries
share a protocol index — and it is the pure gate the builder's `build`
runs before any native setup step, so rejection precedes the creation of
any native resource.  In particular two `Bar0` entries are rejected
(with the duplicated index), while `Bar0` plus `Bar1` is accepted. -/
theorem validate_rejects_iff_duplicate_index :
    (∀ rs : List DeviceRegion,
      (validate (some rs) = .ok ()) ↔ (rs.map regionIdx).Nodup) ∧
    validate (some [bar0Region, bar0RegionBis]) = .error (.duplicateRegion 0) ∧
    validate (some [bar0Region, bar1Region]) = .ok () := by
  refine ⟨?_, rfl, rfl⟩
  intro rs
  rw [validate, validateRegions_ok_iff rs []]
  simp

/-! ## C9: region-access dispatch result conversion

`region_access_callback` (callbacks.rs lines 52–84) dispatches to the
per-kind device method selected by the const-generic region index and
then converts the device's `Result<usize, i32>`: `Ok(bytes_processed)`
becomes the return value `bytes_processed as isize` with errno untouched,
`Err(error)` becomes `set_errno(Errno(error)); -1`.  The conversion is
the same for every dispatch arm; its embedding returns the `isize`
completion value and the errno effect (`none` = errno untouched). -/

/-- The `match result` tail of `region_access_callback`. -/
def region_access_result (result : Except Int Nat) : Int × Option Int :=
  match result with
  | .ok bytes_processed => ((bytes_processed : Int), none)
  | .error error => (-1, some error)

/-- C9 (counterexample to the claim as stated): a device method returning
`Ok(0)` makes the callback return `0`, which is not a *positive* byte
count; and a device method returning `Err(5)` makes the callback return
`-1`, not the negated error code `-5` (the negated code reaches the
transport via the recorded errno, not via the return value). -/
theorem region_access_result_not_literal :
    ((region_access_result (.ok 0)).1 = 0 ∧ ¬ 0 < (region_access_result (.ok 0)).1) ∧
    ((region_access_result (.error 5)).1 = -1 ∧
      (region_access_result (.error 5)).1 ≠ -5) := by
  exact ⟨⟨rfl, by decide⟩, ⟨rfl, by decide⟩⟩

/-- C9 (amended): for every dispatch invocation, `Ok(n)` is returned as
the byte count `n` itself — non-negative, and positive whenever `n > 0` —
with the platform's last error untouched; `Err(code)` yields the negative
completion value `-1` (from which the native layer signals the negated
error code to the transport) and records `code` as the platform's last
error. -/
theorem region_access_result_semantics (n : Nat) (code : Int) :
    (region_access_result (.ok n) = ((n : Int), none)) ∧
    (0 ≤ (region_access_result (.ok n)).1) ∧
    (0 < n → 0 < (region_access_result (.ok n)).1) ∧
    (region_access_result (.error code) = (-1, some code)) ∧
    ((region_access_result (.error code)).1 < 0) := by
  refine ⟨rfl, ?_, ?_, rfl, ?_⟩
  · exact Int.natCast_nonneg n
  · intro h
    simpa [region_access_result] using h
  · simp [region_access_result]

/-- Witness for C9's amended claim at `Ok(4)` / `Err(5)`. -/
theorem region_access_result_semantics_witness :
    (0 : Nat) < 4 ∧ 0 < (region_access_result (.ok 4)).1 ∧
    region_access_result (.error 5) = (-1, some 5) := by
  exact ⟨by decide, (region_access_result_semantics 4 5).2.2.1 (by decide),
    (region_access_result_semantics 4 5).2.2.2.1⟩
